import Mathlib

/-!
# Verification of the fidas-uploader incremental synchronization engine

Shallow embedding of the watermark / file-selection / row-extraction /
orchestration logic of `upload_to_citiesair.py`, `metadata_table.py` and
`utils.py`.

Modelling conventions:
* A naive `datetime` is modelled as a natural number of microseconds on the
  timeline (Python datetimes are linearly ordered; all comparisons in the
  source are order comparisons).  The `YYYYMMDDHHMMSS` text produced by
  `strftime("%Y%m%d%H%M%S")` is an order-preserving, seconds-precision
  encoding of a datetime; it is modelled as the 14-digit zero-padded decimal
  numeral of the seconds count (`t / 1000000`).  Python datetimes are bounded
  by year 9999, so a real seconds count always fits in 14 digits; theorems
  that need this carry the explicit bound `t < 10 ^ 20` microseconds.
* The float NaN sentinel used by pandas for missing cells is modelled as
  `Option.none`; present numeric cells are rationals.
* Fallible operations return `Except PyError _`.  `metadata_table.py`
  references a name `LOGGER` that the module never defines, and
  `upload_to_citiesair.py` line 123 references `error_perm` which is never
  imported; reaching either reference raises a Python `NameError`, modelled
  as `PyError.nameError`.
* External capabilities (FTP listing, file fetch+parse, HTTP delivery) are
  oracle inputs to the cycle, mirroring the spec's "external collaborators".
-/

/-- Python `NameError` raised when an undefined module-level name is
evaluated (`LOGGER` in `metadata_table.py`, `error_perm` in
`upload_to_citiesair.py`). -/
inductive PyError where
  | nameError
deriving DecidableEq

/-- Truncation of a microsecond-precision datetime to whole seconds, as
performed by formatting with `"%Y%m%d%H%M%S"` (sub-second part dropped). -/
def truncUs (t : Nat) : Nat := 1000000 * (t / 1000000)

/-- The decimal digit character of `n` at position `k` (powers of ten),
i.e. one character of a zero-padded decimal numeral. -/
def digitAt (n k : Nat) : Char := Char.ofNat (48 + n / 10 ^ k % 10)

/-- Numeric value of a decimal digit character. -/
def charVal (c : Char) : Nat := c.toNat - 48

/-- `timestamp.strftime("%Y%m%d%H%M%S")` (metadata_table.py line 54):
the 14-character zero-padded seconds-precision rendering of a datetime. -/
def strftime14 (t : Nat) : String :=
  ⟨(List.range 14).reverse.map (digitAt (t / 1000000))⟩

/-- `datetime.datetime.strptime(s, "%Y%m%d%H%M%S")` (metadata_table.py
line 45): parse a 14-digit string back into a (seconds-precision) datetime;
any malformed string fails to parse. -/
def strptime14 (s : String) : Option Nat :=
  if s.data.length = 14 ∧ ∀ c ∈ s.data, c.isDigit then
    some (1000000 * s.data.foldl (fun a c => 10 * a + charVal c) 0)
  else none

/-- The sqlite `meta` table's `last_timestamp` cell: `none` when the key was
never inserted, otherwise the stored TEXT value. -/
abbrev MetaStore := Option String

/-- `set_last_timestamp` (metadata_table.py lines 50-68): format the
datetime as `YYYYMMDDHHMMSS` and upsert it under the `last_timestamp` key. -/
def set_last_timestamp (_db : MetaStore) (timestamp : Nat) : MetaStore :=
  some (strftime14 timestamp)

/-- `get_last_timestamp` (metadata_table.py lines 21-48): read the stored
row; absent row gives `none`; a stored value is parsed with
`strptime("%Y%m%d%H%M%S")`.  On a parse failure the handler evaluates
`LOGGER.warning`, but `metadata_table.py` never defines `LOGGER`, so a
`NameError` escapes instead of `None` being returned. -/
def get_last_timestamp (db : MetaStore) : Except PyError (Option Nat) :=
  match db with
  | none => .ok none
  | some s =>
    match strptime14 s with
    | some t => .ok (some t)
    | none => .error .nameError

/-! ### Round-trip facts about the stored watermark encoding -/

theorem charVal_digitAt (n k : Nat) :
    (digitAt n k).isDigit = true ∧ charVal (digitAt n k) = n / 10 ^ k % 10 := by
  have hd : n / 10 ^ k % 10 < 10 := Nat.mod_lt _ (by norm_num)
  unfold digitAt charVal
  generalize n / 10 ^ k % 10 = d at hd ⊢
  interval_cases d <;> exact ⟨by decide, by decide⟩

theorem mod_mul_decomp (n a b : Nat) :
    n % (a * b) = a * (n / a % b) + n % a := by
  conv_lhs => rw [← Nat.div_add_mod (n % (a * b)) a]
  rw [Nat.mod_mul_right_div_self, Nat.mod_mod_of_dvd _ (dvd_mul_right a b)]

theorem foldl_digits (n : Nat) : ∀ (m a : Nat),
    ((List.range m).reverse.map (digitAt n)).foldl
      (fun a c => 10 * a + charVal c) a = a * 10 ^ m + n % 10 ^ m := by
  intro m
  induction m with
  | zero => intro a; simp [Nat.mod_one]
  | succ m ih =>
    intro a
    rw [List.range_succ, List.reverse_append]
    simp only [List.reverse_cons, List.reverse_nil, List.nil_append,
      List.singleton_append, List.map_cons, List.foldl_cons]
    rw [(charVal_digitAt n m).2, ih]
    have h10 : (10 : Nat) ^ (m + 1) = 10 ^ m * 10 := by ring
    rw [h10, mod_mul_decomp n (10 ^ m) 10]
    ring

theorem strptime14_strftime14 (t : Nat) (h : t / 1000000 < 10 ^ 14) :
    strptime14 (strftime14 t) = some (truncUs t) := by
  have hlen : (strftime14 t).data.length = 14 := by
    simp [strftime14]
  have hdig : ∀ c ∈ (strftime14 t).data, c.isDigit := by
    intro c hc
    simp only [strftime14] at hc
    obtain ⟨k, _, rfl⟩ := List.mem_map.mp hc
    exact (charVal_digitAt _ k).1
  unfold strptime14
  rw [if_pos ⟨hlen, hdig⟩]
  have hfold := foldl_digits (t / 1000000) 14 0
  simp only [strftime14]
  rw [hfold, Nat.mod_eq_of_lt h, truncUs]
  norm_num

theorem strptime14_set (t : Nat) :
    strptime14 (strftime14 t) = some (1000000 * (t / 1000000 % 10 ^ 14)) := by
  have hlen : (strftime14 t).data.length = 14 := by
    simp [strftime14]
  have hdig : ∀ c ∈ (strftime14 t).data, c.isDigit := by
    intro c hc
    simp only [strftime14] at hc
    obtain ⟨k, _, rfl⟩ := List.mem_map.mp hc
    exact (charVal_digitAt _ k).1
  unfold strptime14
  rw [if_pos ⟨hlen, hdig⟩]
  have hfold := foldl_digits (t / 1000000) 14 0
  simp only [strftime14]
  rw [hfold]
  norm_num

/-! ### Rows, measurements and `process_raw_file` -/

/-- One parsed data row of a FIDAS `.txt` file after
`pd.to_datetime(df["date"] + " " + df["time"], format="%m/%d/%Y %I:%M:%S %p")`
has built the `ts` column.  Measured cells use the pandas NaN sentinel for
missing values, modelled as `Option.none`. -/
structure Row where
  ts : Nat
  T : Option ℚ
  rH : Option ℚ
  p : Option ℚ
  PM1 : Option ℚ
  PM25 : Option ℚ
  PM10 : Option ℚ
deriving DecidableEq

/-- `clean` (upload_to_citiesair.py lines 158-166): NaN maps to `None`,
otherwise the optional transform is applied (identity when absent). -/
def clean {α : Type} (x : Option ℚ) (transform : ℚ → α) : Option α :=
  match x with
  | none => none
  | some v => some (transform v)

/-- Python built-in `round` on the exact value: nearest integer, ties to
even (banker's rounding), then `int`. -/
def pyRound (q : ℚ) : ℤ :=
  if q - ⌊q⌋ < 1 / 2 then ⌊q⌋
  else if 1 / 2 < q - ⌊q⌋ then ⌊q⌋ + 1
  else if 2 ∣ ⌊q⌋ then ⌊q⌋ else ⌊q⌋ + 1

/-- One backend measurement JSON object (upload_to_citiesair.py lines
240-248).  Every key is always present in the dict; a `none` field value
serializes as JSON `null`. -/
structure Measurement where
  ts : Nat
  t : Option ℚ
  h : Option ℚ
  p : Option ℤ
  p1 : Option ℚ
  p25 : Option ℚ
  p10 : Option ℚ
deriving DecidableEq

/-- The dict built for one row in the loop of `process_raw_file`
(upload_to_citiesair.py lines 239-249). -/
def buildMeasurement (r : Row) : Measurement :=
  { ts := r.ts
  , t := clean r.T id
  , h := clean r.rH id
  , p := clean r.p (fun v => pyRound (v * 100))
  , p1 := clean r.PM1 id
  , p25 := clean r.PM25 id
  , p10 := clean r.PM10 id }

/-- The dataframe obtained from one fetched file, together with the
outcomes of the two data-dependent checks the source performs on it:
`hasRequiredCols` is whether all of
`["date","time","PM1","PM2.5","PM10","rH","T","p"]` are columns, and
`tsParseOk` is whether `pd.to_datetime` succeeded on every row. -/
structure Table where
  rows : List Row
  hasRequiredCols : Bool
  tsParseOk : Bool

/-- Outcome of `ftp.retrbinary` + `pd.read_table` for one file. -/
inductive FetchResult where
  | ftpError
  | parseError
  | ok (tbl : Table)

/-- The row filter of upload_to_citiesair.py lines 223-225: with a present
watermark keep rows with `ts > last_timestamp`, otherwise keep all rows. -/
def rowIsNew (last : Option Nat) (r : Row) : Bool :=
  match last with
  | none => true
  | some w => decide (w < r.ts)

/-- Row comparison used by `df.sort_values("ts")`. -/
def tsLe (a b : Row) : Prop := a.ts ≤ b.ts

instance : DecidableRel tsLe := fun a b => Nat.decLe a.ts b.ts

instance : IsTotal Row tsLe := ⟨fun a b => Nat.le_total a.ts b.ts⟩

instance : IsTrans Row tsLe := ⟨fun _ _ _ h1 h2 => Nat.le_trans h1 h2⟩

/-- `process_raw_file` (upload_to_citiesair.py lines 169-251): skip the file
on fetch or parse failure, on an empty dataframe, on a missing required
column or a timestamp-parse failure; otherwise drop rows at or before the
watermark, report "nothing new" if none survive, sort the survivors by
timestamp, take the newest timestamp from the last sorted row, and build
one measurement dict per surviving row. -/
def process_raw_file (fetched : FetchResult) (last : Option Nat) :
    Option (List Measurement × Nat) :=
  match fetched with
  | .ftpError => none
  | .parseError => none
  | .ok tbl =>
    if tbl.rows.isEmpty then none
    else if !tbl.hasRequiredCols then none
    else if !tbl.tsParseOk then none
    else
      let newRows := tbl.rows.filter (rowIsNew last)
      if newRows.isEmpty then none
      else
        let sorted := List.insertionSort tsLe newRows
        match sorted.getLast? with
        | none => none
        | some lastRow => some (sorted.map buildMeasurement, lastRow.ts)

/-! ### File listing and selection -/

/-- Python string comparison: lexicographic on code points. -/
def charsLe : List Char → List Char → Bool
  | [], _ => true
  | _ :: _, [] => false
  | a :: as, b :: bs =>
    if a < b then true
    else if b < a then false
    else charsLe as bs

/-- `a <= b` for Python strings. -/
def strLe (a b : String) : Prop := charsLe a.data b.data = true

instance : DecidableRel strLe := fun a b => by
  unfold strLe; infer_instance

theorem charsLe_total : ∀ l1 l2 : List Char, charsLe l1 l2 = true ∨ charsLe l2 l1 = true := by
  intro l1
  induction l1 with
  | nil => intro l2; left; rfl
  | cons a as ih =>
    intro l2
    cases l2 with
    | nil => right; rfl
    | cons b bs =>
      by_cases hab : a < b
      · left; simp [charsLe, hab]
      · by_cases hba : b < a
        · right; simp [charsLe, hba]
        · rcases ih bs with h | h
          · left; simp [charsLe, hab, hba, h]
          · right; simp [charsLe, hab, hba, h]

theorem charsLe_trans : ∀ l1 l2 l3 : List Char,
    charsLe l1 l2 = true → charsLe l2 l3 = true → charsLe l1 l3 = true := by
  intro l1
  induction l1 with
  | nil => intro l2 l3 _ _; rfl
  | cons a as ih =>
    intro l2 l3 h12 h23
    cases l2 with
    | nil => simp [charsLe] at h12
    | cons b bs =>
      cases l3 with
      | nil => simp [charsLe] at h23
      | cons c cs =>
        by_cases hab : a < b
        · have hbc : b ≤ c := by
            by_contra hcb
            simp [charsLe, lt_irrefl, not_le.mp hcb,
              not_lt_of_lt (not_le.mp hcb)] at h23
          have hac : a < c := lt_of_lt_of_le hab hbc
          simp [charsLe, hac]
        · by_cases hba : b < a
          · simp [charsLe, hab, hba] at h12
          · have heq : a = b := le_antisymm (not_lt.mp hba) (not_lt.mp hab)
            subst heq
            simp only [charsLe, if_neg hab, if_neg hba] at h12 ⊢
            by_cases hac : a < c
            · simp [hac]
            · by_cases hca : c < a
              · simp [charsLe, hca, not_lt_of_lt hca] at h23
              · simp only [charsLe, if_neg hac, if_neg hca] at h23 ⊢
                exact ih bs cs h12 h23

instance : IsTotal String strLe := ⟨fun a b => charsLe_total a.data b.data⟩

instance : IsTrans String strLe := ⟨fun a b c => charsLe_trans a.data b.data c.data⟩

/-- `select_files_to_process` (upload_to_citiesair.py lines 129-153): skip
descriptors without an mtime; keep a file when the watermark is unset or its
mtime is strictly newer; then sort the kept names alphabetically. -/
def select_files_to_process (remote_files : List (String × Option Nat))
    (last_timestamp : Option Nat) : List String :=
  List.insertionSort strLe
    (remote_files.filterMap (fun fm =>
      match fm.2 with
      | none => none
      | some mtime =>
        match last_timestamp with
        | none => some fm.1
        | some w => if w < mtime then some fm.1 else none))

/-- ASCII lowering of one character, the relevant fragment of Python
`str.lower()` (remote FIDAS file names are ASCII). -/
def lowerChar (c : Char) : Char :=
  if 65 ≤ c.toNat ∧ c.toNat ≤ 90 then Char.ofNat (c.toNat + 32) else c

/-- `name.lower().endswith(".txt")` (upload_to_citiesair.py line 107). -/
def endsWithTxt (s : String) : Bool :=
  let l := s.data.map lowerChar
  l.drop (l.length - 4) == ".txt".data

/-- One entry of `ftp.mlsd()`: a name and the optional `modify` fact
(a `YYYYMMDDHHMMSS` string). -/
structure MlsdEntry where
  name : String
  modify : Option String

/-- The sort key of upload_to_citiesair.py line 127:
`(mtime or datetime.min, filename)` compared lexicographically. -/
def listingLe (a b : String × Option Nat) : Prop :=
  a.2.getD 0 < b.2.getD 0 ∨ (a.2.getD 0 = b.2.getD 0 ∧ strLe a.1 b.1)

instance : DecidableRel listingLe := fun a b => by
  unfold listingLe; infer_instance

/-- `list_remote_txt_files_with_mtime` (upload_to_citiesair.py lines
95-127): keep `.txt` entries, parse each `modify` fact (unparsable or
absent facts give `None` mtimes) and sort by `(mtime or datetime.min,
name)`.  When `ftp.mlsd()` raises, the handler clause names `error_perm`,
which the module never imports (only `FTP` and `all_errors` are imported),
so evaluating the clause raises a `NameError` instead of degrading. -/
def list_remote_txt_files_with_mtime (mlsd : Except Unit (List MlsdEntry)) :
    Except PyError (List (String × Option Nat)) :=
  match mlsd with
  | .error _ => .error .nameError
  | .ok entries =>
    .ok (List.insertionSort listingLe
      ((entries.filter (fun e => endsWithTxt e.name)).map
        (fun e => (e.name, e.modify.bind strptime14))))

/-! ### The orchestrator (`main`, upload_to_citiesair.py lines 301-357) -/

/-- External outcomes for processing one file: the fetch+parse result and
whether `send_measurements_through_api` reported success for the file's
batch (upload_to_citiesair.py lines 253-276: network error or a status
other than 200/207 gives `False`). -/
structure FileEnv where
  fetch : FetchResult
  deliver : Bool

/-- External outcomes of one cycle: whether `create_ftp_client` succeeded,
the result of `ftp.mlsd()`, and per-filename file outcomes. -/
structure CycleEnv where
  ftpOk : Bool
  mlsd : Except Unit (List MlsdEntry)
  files : List (String × FileEnv)

/-- Look up the outcome bundle for a filename; names without an entry
behave as a failed fetch. -/
def CycleEnv.fileEnv (c : CycleEnv) (f : String) : FileEnv :=
  (c.files.lookup f).getD ⟨FetchResult.ftpError, false⟩

/-- The loop body for one selected file (upload_to_citiesair.py lines
323-345): extract, skip on no result, deliver, skip on failed delivery, and
otherwise persist the newest timestamp and update the in-memory
`last_timestamp`.  The third component is the ghost trace of values this
step persisted, recorded for stating watermark monotonicity. -/
def processOneFile (env : FileEnv) (db : MetaStore) (last : Option Nat) :
    MetaStore × Option Nat × List Nat :=
  match process_raw_file env.fetch last with
  | none => (db, last, [])
  | some (_, newest) =>
    if env.deliver then (set_last_timestamp db newest, some newest, [truncUs newest])
    else (db, last, [])

/-- The `for filename in files_to_process` loop of `main`, threading the
store and the in-memory `last_timestamp`. -/
def runFiles (files : List String) (c : CycleEnv) (db : MetaStore)
    (last : Option Nat) : MetaStore × Option Nat × List Nat :=
  match files with
  | [] => (db, last, [])
  | f :: rest =>
    match processOneFile (c.fileEnv f) db last with
    | (db1, last1, ws1) =>
      match runFiles rest c db1 last1 with
      | (db2, last2, ws2) => (db2, last2, ws1 ++ ws2)

/-- One iteration of the `while True` loop of `main` (upload_to_citiesair.py
lines 304-357): skip the cycle when the FTP client cannot be created;
otherwise list (a listing failure raises and escapes `main`), read the
persisted watermark (a corrupt value raises and escapes `main`), select
files and process each in order. -/
def runCycle (c : CycleEnv) (db : MetaStore) :
    Except PyError MetaStore × List Nat :=
  if c.ftpOk then
    match list_remote_txt_files_with_mtime c.mlsd with
    | .error e => (.error e, [])
    | .ok remote_files =>
      match get_last_timestamp db with
      | .error e => (.error e, [])
      | .ok last =>
        match runFiles (select_files_to_process remote_files last) c db last with
        | (db1, _, ws) => (.ok db1, ws)
  else (.ok db, [])

/-- A run of `main`: the given sequence of cycle environments, starting
from the given store.  An uncaught exception in a cycle terminates the
process; later cycles do not run. -/
def runMain (cycles : List CycleEnv) (db : MetaStore) :
    Except PyError MetaStore × List Nat :=
  match cycles with
  | [] => (.ok db, [])
  | c :: rest =>
    match runCycle c db with
    | (.error e, ws) => (.error e, ws)
    | (.ok db1, ws) =>
      match runMain rest db1 with
      | (res, ws2) => (res, ws ++ ws2)

/-- The persisted watermark value currently decodable from the store. -/
def wmDec (db : MetaStore) : Option Nat := db.bind strptime14

/-- The stored-watermark history seeded with the initial store content. -/
def wmHist (db : MetaStore) : List Nat :=
  match wmDec db with
  | none => []
  | some s => [s]

/-- All row timestamps of a fetched table stay within Python's
`datetime` range (years 1..9999 keep the seconds count within 14 decimal
digits). -/
def tableTsOk (fr : FetchResult) : Prop :=
  match fr with
  | .ftpError => True
  | .parseError => True
  | .ok tbl => ∀ r ∈ tbl.rows, r.ts < 10 ^ 20

instance : (fr : FetchResult) → Decidable (tableTsOk fr)
  | .ftpError => isTrue trivial
  | .parseError => isTrue trivial
  | .ok tbl => inferInstanceAs (Decidable (∀ r ∈ tbl.rows, r.ts < 10 ^ 20))

/-- Every table any file of the cycle can produce has rows within the
`datetime` range. -/
def ValidCycle (c : CycleEnv) : Prop :=
  ∀ fe ∈ c.files, tableTsOk fe.2.fetch

instance : DecidablePred ValidCycle := fun c => by
  unfold ValidCycle
  infer_instance

/-- Every table any file of any cycle can produce has rows within the
`datetime` range. -/
def ValidCycles (cycles : List CycleEnv) : Prop :=
  ∀ c ∈ cycles, ValidCycle c

instance : DecidablePred ValidCycles := fun cycles => by
  unfold ValidCycles
  infer_instance

/-! ### Helper lemmas -/

theorem truncUs_le_self (t : Nat) : truncUs t ≤ t := by
  unfold truncUs
  calc 1000000 * (t / 1000000) = t / 1000000 * 1000000 := Nat.mul_comm _ _
  _ ≤ t := Nat.div_mul_le_self t 1000000

theorem truncUs_mono {t u : Nat} (h : t ≤ u) : truncUs t ≤ truncUs u :=
  Nat.mul_le_mul_left _ (Nat.div_le_div_right h)

theorem truncUs_of_dvd {s : Nat} (h : 1000000 ∣ s) : truncUs s = s :=
  Nat.mul_div_cancel' h

theorem strptime14_dvd {str : String} {s : Nat}
    (h : strptime14 str = some s) : 1000000 ∣ s := by
  unfold strptime14 at h
  split_ifs at h
  cases h
  exact dvd_mul_right 1000000 _

theorem pyRound_nearest (q : ℚ) : |q - (pyRound q : ℚ)| ≤ 1 / 2 := by
  have h1 : (⌊q⌋ : ℚ) ≤ q := Int.floor_le q
  have h2 : q < ⌊q⌋ + 1 := Int.lt_floor_add_one q
  unfold pyRound
  split_ifs with ha hb hc <;> rw [abs_le] <;> constructor <;> push_cast <;> linarith

theorem lookup_mem {α β : Type} [BEq α] [LawfulBEq α] :
    ∀ {l : List (α × β)} {a : α} {b : β}, l.lookup a = some b → (a, b) ∈ l := by
  intro l
  induction l with
  | nil => intro a b h; cases h
  | cons p t ih =>
    intro a b h
    rw [List.lookup] at h
    cases hb : a == p.1 with
    | true =>
      rw [hb] at h
      cases h
      have : a = p.1 := eq_of_beq hb
      subst this
      exact List.mem_cons_self _ _
    | false =>
      rw [hb] at h
      exact List.mem_cons_of_mem _ (ih h)

theorem sorted_le_getLast : ∀ {l : List Row}, List.Pairwise tsLe l →
    ∀ {x : Row}, x ∈ l → ∀ {m : Row}, l.getLast? = some m → x.ts ≤ m.ts := by
  intro l
  induction l with
  | nil => intro _ x hx; cases hx
  | cons a t ih =>
    intro hp x hx m hm
    obtain ⟨ha, hp'⟩ := List.pairwise_cons.mp hp
    cases t with
    | nil =>
      cases hx with
      | head => cases hm; exact Nat.le_refl _
      | tail _ h => cases h
    | cons b t2 =>
      rw [List.getLast?_cons_cons] at hm
      have hmmem : m ∈ b :: t2 := by
        obtain ⟨hne, hx2⟩ :=
          List.mem_getLast?_eq_getLast (Option.mem_def.mpr hm)
        rw [hx2]
        exact List.getLast_mem hne
      cases hx with
      | head => exact ha m hmmem
      | tail _ h => exact ih hp' h hm

theorem get_ok_wmDec {db : MetaStore} {last : Option Nat}
    (h : get_last_timestamp db = .ok last) : wmDec db = last := by
  cases db with
  | none => cases h; rfl
  | some str =>
    simp only [get_last_timestamp] at h
    have hw : wmDec (some str) = strptime14 str := rfl
    rw [hw]
    cases hs : strptime14 str with
    | none => rw [hs] at h; cases h
    | some t => rw [hs] at h; cases h; rfl

/-! ### Claim theorems -/

/-- C6: `get_last_timestamp` returns the absent watermark when the key was
never set, but a stored value that fails to parse as `YYYYMMDDHHMMSS` does
NOT produce a warning and `None`: the warning call references the undefined
name `LOGGER`, so a `NameError` escapes.  This theorem evaluates the code at
the failing input, refuting the "never a raised exception" part. -/
theorem get_malformed_raises :
    get_last_timestamp none = Except.ok none ∧
    get_last_timestamp (some "garbage") = Except.error PyError.nameError :=
  ⟨rfl, rfl⟩

/-- C10: writing a datetime with `set_last_timestamp` and reading it back
with `get_last_timestamp` returns the datetime truncated to whole seconds;
a datetime with zero sub-second part round-trips exactly.  The bound is
Python's `datetime` range (year at most 9999). -/
theorem set_get_roundtrip (db : MetaStore) (t : Nat) (h : t < 10 ^ 20) :
    get_last_timestamp (set_last_timestamp db t) = Except.ok (some (truncUs t)) ∧
    (1000000 ∣ t → truncUs t = t) := by
  have hsec : t / 1000000 < 10 ^ 14 := by
    have h20 : (10 : Nat) ^ 20 = 100000000000000000000 := by norm_num
    have h14 : (10 : Nat) ^ 14 = 100000000000000 := by norm_num
    rw [h20] at h
    rw [h14]
    omega
  constructor
  · simp only [set_last_timestamp, get_last_timestamp]
    rw [strptime14_strftime14 t hsec]
  · intro hdvd
    exact truncUs_of_dvd hdvd

/-- Witness for C10 at two concrete datetimes: 5.5 seconds after the epoch
round-trips to 5 seconds; 5.0 seconds (zero microseconds) round-trips
exactly. -/
theorem set_get_roundtrip_witness :
    get_last_timestamp (set_last_timestamp none 5500000) = Except.ok (some 5000000) ∧
    get_last_timestamp (set_last_timestamp none 5000000) = Except.ok (some 5000000) ∧
    truncUs 5000000 = 5000000 :=
  ⟨(set_get_roundtrip none 5500000 (by norm_num)).1,
    (set_get_roundtrip none 5000000 (by norm_num)).1,
    (set_get_roundtrip none 5000000 (by norm_num)).2 ⟨5, rfl⟩⟩

/-- C8: for every source row, a not-a-number sentinel in any of the six
optional numeric cells produces an explicit `none` in the corresponding
field of the built measurement (the key exists in the dict and holds
`null`); in particular no transform is applied to a sentinel pressure. -/
theorem nan_maps_to_null (r : Row) :
    (r.T = none → (buildMeasurement r).t = none) ∧
    (r.rH = none → (buildMeasurement r).h = none) ∧
    (r.p = none → (buildMeasurement r).p = none) ∧
    (r.PM1 = none → (buildMeasurement r).p1 = none) ∧
    (r.PM25 = none → (buildMeasurement r).p25 = none) ∧
    (r.PM10 = none → (buildMeasurement r).p10 = none) := by
  refine ⟨?_, ?_, ?_, ?_, ?_, ?_⟩ <;> intro h <;> simp [buildMeasurement, clean, h]

/-- Witness for C8 at a concrete row with every measured cell carrying the
sentinel: every measurement field is the explicit null. -/
theorem nan_maps_to_null_witness :
    (buildMeasurement ⟨7, none, none, none, none, none, none⟩).t = none ∧
    (buildMeasurement ⟨7, none, none, none, none, none, none⟩).h = none ∧
    (buildMeasurement ⟨7, none, none, none, none, none, none⟩).p = none ∧
    (buildMeasurement ⟨7, none, none, none, none, none, none⟩).p1 = none ∧
    (buildMeasurement ⟨7, none, none, none, none, none, none⟩).p25 = none ∧
    (buildMeasurement ⟨7, none, none, none, none, none, none⟩).p10 = none :=
  ⟨(nan_maps_to_null _).1 rfl, (nan_maps_to_null _).2.1 rfl,
    (nan_maps_to_null _).2.2.1 rfl, (nan_maps_to_null _).2.2.2.1 rfl,
    (nan_maps_to_null _).2.2.2.2.1 rfl, (nan_maps_to_null _).2.2.2.2.2 rfl⟩

/-- C9 counterexample: a raw pressure of 10.005 produces the integer 1000,
not 1001: the exact product is 1000.5 and Python `round` takes ties to the
even integer 1000 (on IEEE floats the product is below 1000.5, rounding to
1000 as well). -/
theorem pressure_10005_counterexample :
    (buildMeasurement ⟨0, none, none, some (10.005 : ℚ), none, none, none⟩).p
      = some 1000 ∧ (1000 : ℤ) ≠ 1001 := by
  have hq : ((10.005 : ℚ) * 100) = 2001 / 2 := by norm_num
  have hfl : ⌊(2001 / 2 : ℚ)⌋ = 1000 := by
    rw [Int.floor_eq_iff]; norm_num
  constructor
  · show clean (some (10.005 : ℚ)) (fun v => pyRound (v * 100)) = some 1000
    simp only [clean]
    unfold pyRound
    rw [hq, hfl]
    rw [if_neg (by push_cast; norm_num), if_neg (by push_cast; norm_num),
      if_pos (by norm_num)]
  · norm_num

/-- C9 amended: a present pressure value `v` is mapped to the integer
`round(v * 100)` where `round` is round-to-nearest with ties to even; the
result is always within one half of the exact product `v * 100`. -/
theorem pressure_scaling (r : Row) (v : ℚ) (h : r.p = some v) :
    (buildMeasurement r).p = some (pyRound (v * 100)) ∧
    |v * 100 - (pyRound (v * 100) : ℚ)| ≤ 1 / 2 := by
  constructor
  · simp [buildMeasurement, clean, h]
  · exact pyRound_nearest _

/-- Witness for C9 amended at a concrete row with pressure 3: the stored
integer is 300 and it is within one half of the exact product. -/
theorem pressure_scaling_witness :
    (buildMeasurement ⟨0, none, none, some 3, none, none, none⟩).p = some 300 ∧
    |(3 : ℚ) * 100 - ((300 : ℤ) : ℚ)| ≤ 1 / 2 := by
  have h := pressure_scaling ⟨0, none, none, some 3, none, none, none⟩ 3 rfl
  have hp : pyRound ((3 : ℚ) * 100) = 300 := by
    have hc : ((3 : ℚ) * 100) = ((300 : ℤ) : ℚ) := by norm_num
    unfold pyRound
    rw [hc, Int.floor_intCast]
    rw [if_pos (by norm_num)]
  obtain ⟨h1, h2⟩ := h
  rw [hp] at h1 h2
  exact ⟨h1, h2⟩

/-- C4: a filename is selected iff some descriptor carries it with a
non-null mtime that passes the watermark test (absent watermark, or mtime
strictly newer); in particular with mtimes `[none, t1, t2]`, `t1 < t2` and
watermark `t1`, exactly the file with `t2` is selected. -/
theorem file_selection_correct :
    (∀ (remote : List (String × Option Nat)) (last : Option Nat) (f : String),
      f ∈ select_files_to_process remote last ↔
        ∃ m : Nat, (f, some m) ∈ remote ∧
          (last = none ∨ ∃ w, last = some w ∧ w < m)) ∧
    (∀ t1 t2 : Nat, t1 < t2 →
      select_files_to_process
        [("a.txt", none), ("b.txt", some t1), ("c.txt", some t2)]
        (some t1) = ["c.txt"]) := by
  constructor
  · intro remote last f
    unfold select_files_to_process
    rw [(List.perm_insertionSort strLe _).mem_iff, List.mem_filterMap]
    constructor
    · rintro ⟨⟨name, om⟩, hmem, hf⟩
      cases om with
      | none => simp at hf
      | some m =>
        cases last with
        | none =>
          simp only [Option.some.injEq] at hf
          exact ⟨m, hf ▸ hmem, Or.inl rfl⟩
        | some w =>
          by_cases hw : w < m
          · simp only [hw, if_true, Option.some.injEq] at hf
            exact ⟨m, hf ▸ hmem, Or.inr ⟨w, rfl, hw⟩⟩
          · simp only [hw, if_false] at hf
            cases hf
    · rintro ⟨m, hmem, hcond⟩
      refine ⟨(f, some m), hmem, ?_⟩
      rcases hcond with h | ⟨w, rfl, hw⟩
      · subst h; rfl
      · simp only [hw, if_true]
  · intro t1 t2 h
    unfold select_files_to_process
    simp only [List.filterMap_cons, List.filterMap_nil, lt_irrefl t1,
      if_false, h, if_true]
    rfl

/-- Witness for C4 at a concrete listing (mtimes `[none, 1, 2]`, watermark
`1`): the membership characterisation holds for `"c.txt"` and the selection
returns exactly `["c.txt"]`. -/
theorem file_selection_correct_witness :
    ("c.txt" ∈ select_files_to_process
        [("a.txt", none), ("b.txt", some 1), ("c.txt", some 2)] (some 1) ↔
      ∃ m : Nat,
        ("c.txt", some m) ∈ [("a.txt", none), ("b.txt", some 1), ("c.txt", some 2)] ∧
        ((some 1 : Option Nat) = none ∨ ∃ w, (some 1 : Option Nat) = some w ∧ w < m)) ∧
    select_files_to_process
      [("a.txt", none), ("b.txt", some 1), ("c.txt", some 2)] (some 1) = ["c.txt"] :=
  ⟨file_selection_correct.1 _ _ _, file_selection_correct.2 1 2 (by norm_num)⟩

/-- C5 counterexample: the selection performs no de-duplication — a listing
that repeats a qualifying filename yields that filename twice. -/
theorem selection_no_dedup_counterexample :
    select_files_to_process [("a.txt", some 1), ("a.txt", some 1)] none
      = ["a.txt", "a.txt"] ∧
    ¬ (select_files_to_process [("a.txt", some 1), ("a.txt", some 1)] none).Nodup := by
  constructor
  · rfl
  · decide

/-- C5 amended: the returned filename list is sorted ascending in the
code-point order Python's list sort uses; duplicate qualifying descriptors
for the same name produce duplicate entries (no de-duplication). -/
theorem selection_sorted (remote : List (String × Option Nat))
    (last : Option Nat) :
    List.Sorted strLe (select_files_to_process remote last) :=
  List.sorted_insertionSort strLe _

/-- C3: when extraction returns a batch, the measurements are exactly the
images of the rows strictly newer than the watermark (all rows when the
watermark is absent), listed in ascending timestamp order, and the reported
newest timestamp is the maximum timestamp among those rows. -/
theorem extraction_correct (tbl : Table) (last : Option Nat)
    (ms : List Measurement) (newest : Nat)
    (h : process_raw_file (FetchResult.ok tbl) last = some (ms, newest)) :
    ms.Perm ((tbl.rows.filter (rowIsNew last)).map buildMeasurement) ∧
    List.Sorted (· ≤ ·) (ms.map Measurement.ts) ∧
    newest ∈ (tbl.rows.filter (rowIsNew last)).map Row.ts ∧
    (∀ r ∈ tbl.rows.filter (rowIsNew last), r.ts ≤ newest) := by
  simp only [process_raw_file] at h
  split_ifs at h
  split at h
  · cases h
  next lastRow hlast =>
    cases h
    have hperm := List.perm_insertionSort tsLe (tbl.rows.filter (rowIsNew last))
    have hsort := List.sorted_insertionSort tsLe (tbl.rows.filter (rowIsNew last))
    have hmemS : lastRow ∈ List.insertionSort tsLe (tbl.rows.filter (rowIsNew last)) := by
      obtain ⟨hne, heq⟩ := List.mem_getLast?_eq_getLast (Option.mem_def.mpr hlast)
      rw [heq]
      exact List.getLast_mem hne
    refine ⟨hperm.map buildMeasurement, ?_, ?_, ?_⟩
    · rw [List.map_map]
      have hts : Measurement.ts ∘ buildMeasurement = Row.ts := rfl
      rw [hts]
      exact List.pairwise_map.mpr hsort
    · exact List.mem_map_of_mem Row.ts (hperm.subset hmemS)
    · intro r hr
      exact sorted_le_getLast hsort (hperm.symm.subset hr) hlast

/-- Witness for C3 at a concrete 3-row table (timestamps 3, 1, 2 in source
order) and watermark 1: the row at 1 is dropped, the two survivors come out
sorted, and the newest timestamp is 3. -/
theorem extraction_correct_witness :
    ([⟨2, none, none, none, none, none, none⟩,
      ⟨3, none, none, none, none, none, none⟩] : List Measurement).Perm
      ((([⟨3, none, none, none, none, none, none⟩,
          ⟨1, none, none, none, none, none, none⟩,
          ⟨2, none, none, none, none, none, none⟩] : List Row).filter
            (rowIsNew (some 1))).map buildMeasurement) ∧
    List.Sorted (· ≤ ·)
      (([⟨2, none, none, none, none, none, none⟩,
        ⟨3, none, none, none, none, none, none⟩] : List Measurement).map
          Measurement.ts) ∧
    3 ∈ (([⟨3, none, none, none, none, none, none⟩,
          ⟨1, none, none, none, none, none, none⟩,
          ⟨2, none, none, none, none, none, none⟩] : List Row).filter
            (rowIsNew (some 1))).map Row.ts ∧
    (∀ r ∈ ([⟨3, none, none, none, none, none, none⟩,
          ⟨1, none, none, none, none, none, none⟩,
          ⟨2, none, none, none, none, none, none⟩] : List Row).filter
            (rowIsNew (some 1)), r.ts ≤ 3) :=
  extraction_correct
    ⟨[⟨3, none, none, none, none, none, none⟩,
      ⟨1, none, none, none, none, none, none⟩,
      ⟨2, none, none, none, none, none, none⟩], true, true⟩
    (some 1) _ 3 rfl

/-- C2: when a file's batch is extracted, a failed delivery leaves the
store and the in-memory `last_timestamp` exactly as they were and records
no persisted write, while a successful delivery is the only case in which
`set_last_timestamp` is called, with the file's newest row timestamp. -/
theorem watermark_withheld_on_failure (env : FileEnv) (db : MetaStore)
    (last : Option Nat) (ms : List Measurement) (newest : Nat)
    (h : process_raw_file env.fetch last = some (ms, newest)) :
    (env.deliver = false → processOneFile env db last = (db, last, [])) ∧
    (env.deliver = true →
      processOneFile env db last =
        (set_last_timestamp db newest, some newest, [truncUs newest])) := by
  unfold processOneFile
  rw [h]
  constructor <;> intro hd <;> rw [hd] <;> simp

/-- Witness for C2 at a concrete one-row file whose delivery fails: the
store and the in-memory watermark are unchanged and nothing is written. -/
theorem watermark_withheld_on_failure_witness :
    processOneFile
      ⟨FetchResult.ok ⟨[⟨2000000, none, none, none, none, none, none⟩], true, true⟩,
        false⟩
      (some "00000000000001") (some 1000000)
      = (some "00000000000001", some 1000000, []) :=
  (watermark_withheld_on_failure
    ⟨FetchResult.ok ⟨[⟨2000000, none, none, none, none, none, none⟩], true, true⟩,
      false⟩
    (some "00000000000001") (some 1000000)
    [⟨2000000, none, none, none, none, none, none⟩] 2000000 rfl).1 rfl

/-- C7: a failed remote listing does not degrade gracefully — the `except`
clause of `list_remote_txt_files_with_mtime` names `error_perm`, which the
module never imports, so any `ftp.mlsd()` failure raises a `NameError`
that propagates out of `main` and terminates the process: the cycle's run
ends in the error and no later cycle runs.  This refutes the claim that no
listing failure ever terminates the process. -/
theorem listing_failure_kills_process (c : CycleEnv) (db : MetaStore)
    (e : Unit) (hftp : c.ftpOk = true) (hmlsd : c.mlsd = Except.error e) :
    runCycle c db = (Except.error PyError.nameError, []) ∧
    (∀ rest : List CycleEnv,
      runMain (c :: rest) db = (Except.error PyError.nameError, [])) := by
  have hcyc : runCycle c db = (Except.error PyError.nameError, []) := by
    unfold runCycle list_remote_txt_files_with_mtime
    rw [hftp, hmlsd]
    rfl
  refine ⟨hcyc, fun rest => ?_⟩
  unfold runMain
  rw [hcyc]

/-- Witness for C7 at a concrete cycle whose `MLSD` listing fails. -/
theorem listing_failure_kills_process_witness :
    runCycle ⟨true, Except.error (), []⟩ none
      = (Except.error PyError.nameError, []) ∧
    runMain [⟨true, Except.error (), []⟩] none
      = (Except.error PyError.nameError, []) :=
  ⟨(listing_failure_kills_process ⟨true, Except.error (), []⟩ none () rfl rfl).1,
    (listing_failure_kills_process ⟨true, Except.error (), []⟩ none () rfl rfl).2 []⟩

/-! ### The watermark-monotonicity development (C1) -/

theorem process_some_facts {fr : FetchResult} {last : Option Nat}
    {ms : List Measurement} {newest : Nat}
    (h : process_raw_file fr last = some (ms, newest)) :
    (∃ tbl, fr = FetchResult.ok tbl ∧ ∃ r ∈ tbl.rows, r.ts = newest) ∧
    (∀ w, last = some w → w < newest) := by
  cases fr with
  | ftpError => cases h
  | parseError => cases h
  | ok tbl =>
    simp only [process_raw_file] at h
    split_ifs at h
    split at h
    · cases h
    next lastRow hlast =>
      cases h
      have hperm := List.perm_insertionSort tsLe (tbl.rows.filter (rowIsNew last))
      have hmemS : lastRow ∈ List.insertionSort tsLe (tbl.rows.filter (rowIsNew last)) := by
        obtain ⟨hne, heq⟩ := List.mem_getLast?_eq_getLast (Option.mem_def.mpr hlast)
        rw [heq]
        exact List.getLast_mem hne
      have hfil : lastRow ∈ tbl.rows.filter (rowIsNew last) := hperm.subset hmemS
      have hrow : lastRow ∈ tbl.rows := List.mem_of_mem_filter hfil
      have hnew : rowIsNew last lastRow = true := List.of_mem_filter hfil
      refine ⟨⟨tbl, rfl, lastRow, hrow, rfl⟩, ?_⟩
      intro w hw
      rw [hw] at hnew
      simp only [rowIsNew, decide_eq_true_eq] at hnew
      exact hnew

theorem fileEnv_rows_bound {c : CycleEnv} (hc : ValidCycle c) (f : String)
    {tbl : Table} (hf : (c.fileEnv f).fetch = FetchResult.ok tbl) :
    ∀ r ∈ tbl.rows, r.ts < 10 ^ 20 := by
  unfold CycleEnv.fileEnv at hf
  cases hl : c.files.lookup f with
  | none =>
    rw [hl] at hf
    cases hf
  | some fe =>
    rw [hl] at hf
    simp only [Option.getD_some] at hf
    have hmem := lookup_mem hl
    have htok := hc (f, fe) hmem
    rw [hf] at htok
    exact htok

theorem runFiles_spec {c : CycleEnv} (hc : ValidCycle c) :
    ∀ (files : List String) (db : MetaStore) (last : Option Nat),
      List.Pairwise (· ≤ ·) (runFiles files c db last).2.2 ∧
      (∀ x ∈ (runFiles files c db last).2.2, ∀ l, last = some l → truncUs l ≤ x) ∧
      (∀ l, last = some l →
        ∃ n, (runFiles files c db last).2.1 = some n ∧ l ≤ n) ∧
      (((runFiles files c db last).1 = db ∧
          (runFiles files c db last).2.1 = last ∧
          (runFiles files c db last).2.2 = []) ∨
        (∃ n, (runFiles files c db last).2.1 = some n ∧
          (runFiles files c db last).1 = some (strftime14 n) ∧ n < 10 ^ 20 ∧
          ∀ x ∈ (runFiles files c db last).2.2, x ≤ truncUs n)) := by
  intro files
  induction files with
  | nil =>
    intro db last
    refine ⟨List.Pairwise.nil, ?_, ?_, Or.inl ⟨rfl, rfl, rfl⟩⟩
    · intro x hx
      simp only [runFiles] at hx
      cases hx
    · intro l hl
      exact ⟨l, hl, Nat.le_refl l⟩
  | cons f rest ih =>
    intro db last
    rcases hpe : processOneFile (c.fileEnv f) db last with ⟨db1, last1, ws1⟩
    obtain ⟨ih1, ih2, ih3, ih4⟩ := ih db1 last1
    rcases hrf : runFiles rest c db1 last1 with ⟨db2, last2, ws2⟩
    rw [hrf] at ih1 ih2 ih3 ih4
    dsimp only at ih1 ih2 ih3 ih4
    simp only [runFiles, hpe, hrf]
    cases hpr : process_raw_file (c.fileEnv f).fetch last with
    | none =>
      simp only [processOneFile, hpr] at hpe
      injection hpe with e1 e23
      injection e23 with e2 e3
      subst e1; subst e2; subst e3
      simp only [List.nil_append]
      exact ⟨ih1, ih2, ih3, ih4⟩
    | some p =>
      rcases p with ⟨ms, newest⟩
      obtain ⟨⟨tbl, hfetch, r, hr, hrts⟩, hgt⟩ := process_some_facts hpr
      have hb : newest < 10 ^ 20 := hrts ▸ fileEnv_rows_bound hc f hfetch r hr
      cases hdel : (c.fileEnv f).deliver with
      | false =>
        simp only [processOneFile, hpr, hdel, if_false] at hpe
        injection hpe with e1 e23
        injection e23 with e2 e3
        subst e1; subst e2; subst e3
        simp only [List.nil_append]
        exact ⟨ih1, ih2, ih3, ih4⟩
      | true =>
        simp only [processOneFile, hpr, hdel, if_true] at hpe
        injection hpe with e1 e23
        injection e23 with e2 e3
        subst e1; subst e2; subst e3
        simp only [List.singleton_append]
        have hwrest : ∀ x ∈ ws2, truncUs newest ≤ x := by
          intro x hx
          exact ih2 x hx newest rfl
        refine ⟨List.Pairwise.cons hwrest ih1, ?_, ?_, ?_⟩
        · intro x hx l hl
          have hln : l < newest := hgt l hl
          have hmono : truncUs l ≤ truncUs newest := truncUs_mono (Nat.le_of_lt hln)
          cases hx with
          | head => exact hmono
          | tail _ hx2 => exact Nat.le_trans hmono (hwrest x hx2)
        · intro l hl
          obtain ⟨n, hn, hle⟩ := ih3 newest rfl
          exact ⟨n, hn, Nat.le_trans (Nat.le_of_lt (hgt l hl)) hle⟩
        · rcases ih4 with ⟨hdb2, hlast2, hws2⟩ | ⟨n, hlast2, hdb2, hbn, hub⟩
          · subst hws2
            refine Or.inr ⟨newest, hlast2, hdb2, hb, ?_⟩
            intro x hx
            cases hx with
            | head => exact Nat.le_refl _
            | tail _ hx2 => cases hx2
          · refine Or.inr ⟨n, hlast2, hdb2, hbn, ?_⟩
            obtain ⟨n', hn', hle'⟩ := ih3 newest rfl
            rw [hlast2] at hn'
            injection hn' with hnn
            subst hnn
            intro x hx
            cases hx with
            | head => exact truncUs_mono hle'
            | tail _ hx2 => exact hub x hx2

theorem wmDec_dvd {db : MetaStore} {s : Nat} (h : wmDec db = some s) :
    1000000 ∣ s := by
  cases db with
  | none => cases h
  | some str => exact strptime14_dvd h

theorem wmDec_set {n : Nat} (hb : n < 10 ^ 20) :
    wmDec (some (strftime14 n)) = some (truncUs n) := by
  have hsec : n / 1000000 < 10 ^ 14 := by
    have h20 : (10 : Nat) ^ 20 = 100000000000000000000 := by norm_num
    have h14 : (10 : Nat) ^ 14 = 100000000000000 := by norm_num
    rw [h20] at hb
    rw [h14]
    omega
  exact strptime14_strftime14 n hsec

theorem runCycle_spec {c : CycleEnv} (hc : ValidCycle c) (db : MetaStore) :
    List.Pairwise (· ≤ ·) (runCycle c db).2 ∧
    (∀ x ∈ (runCycle c db).2, ∀ s, wmDec db = some s → s ≤ x) ∧
    (∀ db1, (runCycle c db).1 = Except.ok db1 →
      ((db1 = db ∧ (runCycle c db).2 = []) ∨
        (∃ n, n < 10 ^ 20 ∧ db1 = some (strftime14 n) ∧
          (∀ x ∈ (runCycle c db).2, x ≤ truncUs n) ∧
          (∀ s, wmDec db = some s → s ≤ truncUs n)))) := by
  unfold runCycle
  split
  case isFalse =>
    refine ⟨List.Pairwise.nil, ?_, ?_⟩
    · intro x hx
      cases hx
    · intro db1 h1
      injection h1 with h1
      exact Or.inl ⟨h1.symm, rfl⟩
  case isTrue hftp =>
    cases hls : list_remote_txt_files_with_mtime c.mlsd with
    | error e =>
      refine ⟨List.Pairwise.nil, ?_, ?_⟩
      · intro x hx
        cases hx
      · intro db1 h1
        cases h1
    | ok remote =>
      cases hget : get_last_timestamp db with
      | error e =>
        refine ⟨List.Pairwise.nil, ?_, ?_⟩
        · intro x hx
          cases hx
        · intro db1 h1
          cases h1
      | ok last =>
        have hwm : wmDec db = last := get_ok_wmDec hget
        obtain ⟨rf1, rf2, rf3, rf4⟩ :=
          runFiles_spec hc (select_files_to_process remote last) db last
        rcases hruns : runFiles (select_files_to_process remote last) c db last
          with ⟨db', l', ws⟩
        rw [hruns] at rf1 rf2 rf3 rf4
        dsimp only at rf1 rf2 rf3 rf4 ⊢
        rw [hruns]
        dsimp only
        refine ⟨rf1, ?_, ?_⟩
        · intro x hx s hs
          have hlast : last = some s := by rw [← hwm, hs]
          have := rf2 x hx s hlast
          rwa [truncUs_of_dvd (wmDec_dvd hs)] at this
        · intro db1 h1
          injection h1 with h1
          subst h1
          rcases rf4 with ⟨hdb, _, hws⟩ | ⟨n, hl', hdb', hbn, hub⟩
          · exact Or.inl ⟨hdb, hws⟩
          · refine Or.inr ⟨n, hbn, hdb', hub, ?_⟩
            intro s hs
            have hlast : last = some s := by rw [← hwm, hs]
            obtain ⟨n0, hn0, hle0⟩ := rf3 s hlast
            rw [hl'] at hn0
            injection hn0 with hnn
            subst hnn
            calc s = truncUs s := (truncUs_of_dvd (wmDec_dvd hs)).symm
            _ ≤ truncUs n := truncUs_mono hle0

theorem runMain_spec :
    ∀ (cycles : List CycleEnv), (∀ c ∈ cycles, ValidCycle c) →
      ∀ (db : MetaStore),
        List.Pairwise (· ≤ ·) (runMain cycles db).2 ∧
        (∀ x ∈ (runMain cycles db).2, ∀ s, wmDec db = some s → s ≤ x) := by
  intro cycles
  induction cycles with
  | nil =>
    intro _ db
    refine ⟨List.Pairwise.nil, ?_⟩
    intro x hx
    simp only [runMain] at hx
    cases hx
  | cons c rest ih =>
    intro hv db
    have hc : ValidCycle c := hv c (List.mem_cons_self c rest)
    have hrest : ∀ c' ∈ rest, ValidCycle c' :=
      fun c' h => hv c' (List.mem_cons_of_mem c h)
    obtain ⟨cs1, cs2, cs3⟩ := runCycle_spec hc db
    rcases hrc : runCycle c db with ⟨resC, ws1⟩
    rw [hrc] at cs1 cs2 cs3
    dsimp only at cs1 cs2 cs3
    simp only [runMain]
    rw [hrc]
    cases resC with
    | error e => exact ⟨cs1, cs2⟩
    | ok db1 =>
      dsimp only
      obtain ⟨ih1, ih2⟩ := ih hrest db1
      rcases hrm : runMain rest db1 with ⟨res2, ws2⟩
      rw [hrm] at ih1 ih2
      dsimp only at ih1 ih2
      dsimp only
      rcases cs3 db1 rfl with ⟨hdb1, hws1⟩ | ⟨n, hbn, hdb1, hub, hlow⟩
      · subst hws1
        subst hdb1
        simp only [List.nil_append]
        exact ⟨ih1, ih2⟩
      · have hwm1 : wmDec db1 = some (truncUs n) := by
          rw [hdb1]
          exact wmDec_set hbn
        constructor
        · rw [List.pairwise_append]
          refine ⟨cs1, ih1, ?_⟩
          intro x hx y hy
          exact Nat.le_trans (hub x hx) (ih2 y hy (truncUs n) hwm1)
        · intro x hx s hs
          rcases List.mem_append.mp hx with hx1 | hx2
          · exact cs2 x hx1 s hs
          · exact Nat.le_trans (hlow s hs) (ih2 x hx2 (truncUs n) hwm1)

/-- C1: across any run — any sequence of cycles, each reading the persisted
watermark, processing files and possibly calling `set_last_timestamp` — the
persisted watermark is monotonically non-decreasing: every value the run
persists is at least the initially stored value and at least every value
persisted before it.  Row timestamps are assumed to lie in Python's
`datetime` range (year at most 9999). -/
theorem watermark_monotone (cycles : List CycleEnv) (db : MetaStore)
    (res : Except PyError MetaStore) (ws : List Nat)
    (hv : ValidCycles cycles) (h : runMain cycles db = (res, ws)) :
    List.Pairwise (· ≤ ·) (wmHist db ++ ws) := by
  obtain ⟨hp, hlb⟩ := runMain_spec cycles hv db
  rw [h] at hp hlb
  dsimp only at hp hlb
  rw [List.pairwise_append]
  refine ⟨?_, hp, ?_⟩
  · unfold wmHist
    cases wmDec db with
    | none => exact List.Pairwise.nil
    | some s => exact List.pairwise_singleton _ _
  · intro s hs x hx
    unfold wmHist at hs
    cases hdec : wmDec db with
    | none =>
      rw [hdec] at hs
      cases hs
    | some s0 =>
      rw [hdec] at hs
      cases hs with
      | head => exact hlb x hx s hdec
      | tail _ h2 => cases h2

/-- One concrete cycle: the FTP client connects, `MLSD` lists one `.txt`
file modified at 2 seconds, and that file carries one row at 5.5 seconds
whose delivery succeeds. -/
def sampleCycle : CycleEnv :=
  ⟨true, Except.ok [⟨"A.txt", some "00000000000002"⟩],
    [("A.txt",
      ⟨FetchResult.ok ⟨[⟨5500000, none, none, none, none, none, none⟩], true, true⟩,
        true⟩)]⟩

/-- Witness for C1: a concrete one-cycle run from an empty store persists
the value 5 seconds and the full persisted history is non-decreasing. -/
theorem watermark_monotone_witness :
    ValidCycles [sampleCycle] ∧
    runMain [sampleCycle] none = (Except.ok (some (strftime14 5500000)), [5000000]) ∧
    List.Pairwise (· ≤ ·) (wmHist none ++ [5000000]) :=
  ⟨by decide, rfl,
    watermark_monotone [sampleCycle] none (Except.ok (some (strftime14 5500000)))
      [5000000] (by decide) rfl⟩
